import Mathlib

/-
  Verification development for the living-memory repository.

  The Python sources under src/ are shallowly embedded:
  * datetime.date is modelled by its proleptic-Gregorian ordinal
    (Python date.toordinal; 0001-01-01 has ordinal 1, a Monday),
    so date comparison is Nat order and timedelta(days = k) is + k.
  * The frontmatter/YAML layer (external python-frontmatter + PyYAML)
    surfaces a file as either unparseable or a parsed header
    (association list from string keys to YAML scalars) plus the raw
    body segment.  Its format() ends in str.strip() (which is why
    memory.py:69 appends a final newline to dumps) and its parse
    returns content.strip(), so the embedding strips the body on both
    write and read.  Memory.dump writes target/expires via
    date.isoformat and the YAML layer reads the resulting unquoted ISO
    scalars back as datetime.date objects (which _parse_date passes
    through); the embedded header therefore carries calendar dates
    directly.
  * Exceptions become Except; the file system becomes an association
    list from path names to files; the external side effects of the
    cleanup module (GCS deletes, unlink, git) become an event trace.
-/

namespace LivingMemory

/-! ## Dates (datetime.date as its ordinal) -/

/-- Python datetime.date, identified with date.toordinal():
ordinal 1 is 0001-01-01, a Monday. -/
abbrev Date := Nat

/-- date.weekday(): Monday = 0 .. Sunday = 6.  Ordinal 1 is a Monday. -/
def weekday (d : Date) : Nat := (d + 6) % 7

/-- memory.py _next_sunday: d + timedelta(days = 6 - d.weekday()). -/
def nextSunday (d : Date) : Date := d + (6 - weekday d)

/-- Ordinal to (year, month, day), civil-from-days division algorithm. -/
def toYMD (o : Nat) : Nat × Nat × Nat :=
  let z := o + 305
  let era := z / 146097
  let doe := z % 146097
  let yoe := (doe - doe / 1460 + doe / 36524 - doe / 146096) / 365
  let y0 := yoe + era * 400
  let doy := doe - (365 * yoe + yoe / 4 - yoe / 100)
  let mp := (5 * doy + 2) / 153
  let d := doy - (153 * mp + 2) / 5 + 1
  let m := if mp < 10 then mp + 3 else mp - 9
  if m ≤ 2 then (y0 + 1, m, d) else (y0, m, d)

def pad2 (n : Nat) : String :=
  (if n < 10 then "0" else "") ++ toString n

def pad4 (n : Nat) : String :=
  (if n < 10 then "000" else if n < 100 then "00" else if n < 1000 then "0" else "")
    ++ toString n

/-- date.isoformat(): "YYYY-MM-DD". -/
def isoformat (d : Date) : String :=
  let ymd := toYMD d
  pad4 ymd.1 ++ "-" ++ pad2 ymd.2.1 ++ "-" ++ pad2 ymd.2.2

def isLeap (y : Nat) : Bool :=
  (y % 4 == 0 && y % 100 != 0) || y % 400 == 0

def daysInMonth (y m : Nat) : Nat :=
  if m = 2 then (if isLeap y then 29 else 28)
  else if m = 4 ∨ m = 6 ∨ m = 9 ∨ m = 11 then 30
  else 31

/-- (year, month, day) to ordinal, days-from-civil division algorithm. -/
def daysFromCivil (y m d : Nat) : Nat :=
  let y1 := if m ≤ 2 then y - 1 else y
  let era := y1 / 400
  let yoe := y1 % 400
  let mp := if 2 < m then m - 3 else m + 9
  let doy := (153 * mp + 2) / 5 + d - 1
  let doe := yoe * 365 + yoe / 4 - yoe / 100 + doy
  era * 146097 + doe - 305

def digitVal (c : Char) : Option Nat :=
  if '0' ≤ c ∧ c ≤ '9' then some (c.toNat - '0'.toNat) else none

/-- date.fromisoformat on the canonical "YYYY-MM-DD" form; anything else
fails (Python raises ValueError). -/
def fromisoformat (s : String) : Option Date :=
  match s.data with
  | [y1, y2, y3, y4, h1, m1, m2, h2, d1, d2] =>
    if h1 = '-' ∧ h2 = '-' then
      match digitVal y1, digitVal y2, digitVal y3, digitVal y4,
            digitVal m1, digitVal m2, digitVal d1, digitVal d2 with
      | some a, some b, some c, some d,
        some e, some f, some g, some h =>
        let y := 1000 * a + 100 * b + 10 * c + d
        let mo := 10 * e + f
        let da := 10 * g + h
        if 1 ≤ y ∧ 1 ≤ mo ∧ mo ≤ 12 ∧ 1 ≤ da ∧ da ≤ daysInMonth y mo then
          some (daysFromCivil y mo da)
        else none
      | _, _, _, _, _, _, _, _ => none
    else none
  | _ => none

/-! ## The Memory record model (src/memory.py) -/

/-- A YAML value occurring in a record header. -/
inductive MetaVal where
  | vStr (s : String)
  | vDate (d : Date)
  | vList (l : List String)
  | vNull
deriving DecidableEq, Repr

/-- A record file as the frontmatter layer surfaces it: either not valid
frontmatter markup, or a parsed metadata header plus a body. -/
inductive FmFile where
  | malformed
  | parsed (metadata : List (String × MetaVal)) (content : String)
deriving DecidableEq, Repr

/-- The dataclass Memory of src/memory.py. -/
structure Memory where
  target : Option Date
  expires : Date
  content : String
  title : Option String := none
  time : Option String := none
  place : Option String := none
  attachments : Option (List String) := none
  user_id : String := "cambridge-lexington"
deriving DecidableEq, Repr

/-- Failure modes of Memory.load (Python: frontmatter parse errors,
KeyError on a missing expires, ValueError/TypeError from _parse_date,
TypeError from list(...)); all are uncaught and propagate. -/
inductive LoadError where
  | malformedHeader
  | missingExpires
  | badDate
  | badField
deriving DecidableEq, Repr

/-- memory.py _parse_date: pass a date through, parse a string, anything
else raises. -/
def parseDateVal : MetaVal → Option Date
  | .vDate d => some d
  | .vStr s => fromisoformat s
  | _ => none

/-- Python str(c) for one character of a string being iterated over. -/
def charStr (c : Char) : String := String.mk [c]

/-- The ASCII characters Python str.strip() removes.  (Exotic Unicode
space characters would also be stripped by Python; the approximation is
applied identically on the write and the read side.) -/
def isPySpace (c : Char) : Bool :=
  c == ' ' || c == '\t' || c == '\n' || c == '\r' || c == '\x0b' || c == '\x0c'

/-- Remove trailing whitespace (the right half of str.strip()): a
character is kept when something non-whitespace follows it. -/
def endStrip : List Char → List Char
  | [] => []
  | a :: as =>
    if endStrip as = [] then (if isPySpace a then [] else [a])
    else a :: endStrip as

/-- Python str.strip(): leading then trailing whitespace removed. -/
def stripChars (l : List Char) : List Char := endStrip (l.dropWhile isPySpace)

/-- Python str.strip() on strings; applied by python-frontmatter both
when serializing (format() ends in .strip()) and when parsing (parse
returns content.strip()). -/
def pyStrip (s : String) : String := String.mk (stripChars s.data)

/-- target=_parse_date(raw_target) if raw_target is not None else None. -/
def loadTarget (md : List (String × MetaVal)) : Except LoadError (Option Date) :=
  match md.lookup "target" with
  | none => pure none
  | some .vNull => pure none
  | some v => match parseDateVal v with
    | some d => pure (some d)
    | none => Except.error .badDate

/-- expires=_parse_date(post.metadata["expires"]): a missing key raises
KeyError, a bad value raises from _parse_date. -/
def loadExpires (md : List (String × MetaVal)) : Except LoadError Date :=
  match md.lookup "expires" with
  | none => Except.error .missingExpires
  | some v => match parseDateVal v with
    | some d => pure d
    | none => Except.error .badDate

/-- post.metadata.get(key) for the plain string fields title/time/place.
A present value of non-string shape is rejected (Python would store the
raw object in a str-annotated field; such headers are outside the data
model and unreachable from dump). -/
def loadStrField (md : List (String × MetaVal)) (key : String) :
    Except LoadError (Option String) :=
  match md.lookup key with
  | none => pure none
  | some .vNull => pure none
  | some (.vStr s) => pure (some s)
  | some _ => Except.error .badField

/-- attachments=list(raw_attachments) if raw_attachments else None. -/
def loadAttachments (md : List (String × MetaVal)) :
    Except LoadError (Option (List String)) :=
  match md.lookup "attachments" with
  | none => pure none
  | some .vNull => pure none
  | some (.vList []) => pure none
  | some (.vList l) => pure (some l)
  | some (.vStr s) =>
      if s = "" then pure none else pure (some (s.data.map charStr))
  | some (.vDate _) => Except.error .badField

/-- user_id=post.metadata.get("user_id", "cambridge-lexington"). -/
def loadUserId (md : List (String × MetaVal)) : Except LoadError String :=
  match md.lookup "user_id" with
  | none => pure "cambridge-lexington"
  | some (.vStr s) => pure s
  | some _ => Except.error .badField

/-- Memory.load: each step mirrors one field of the constructor call in
memory.py lines 42-51; post.content is the parsed body, which
python-frontmatter returns as content.strip(). -/
def Memory.load : FmFile → Except LoadError Memory
  | .malformed => .error .malformedHeader
  | .parsed md content => do
    let target ← loadTarget md
    let expires ← loadExpires md
    let title ← loadStrField md "title"
    let time ← loadStrField md "time"
    let place ← loadStrField md "place"
    let attachments ← loadAttachments md
    let user_id ← loadUserId md
    pure { target := target, expires := expires, content := pyStrip content,
           title := title, time := time, place := place,
           attachments := attachments, user_id := user_id }

/-- Memory.dump: only present fields are written, in the source's key
order; a falsy attachments value (None or empty list) is omitted.  The
stored body is frontmatter.dumps output (whose format() strips it) plus
the trailing newline appended at memory.py:69. -/
def Memory.dump (m : Memory) : FmFile :=
  let md :=
    (match m.target with
     | some d => [("target", MetaVal.vDate d)]
     | none => [])
    ++ [("expires", MetaVal.vDate m.expires)]
    ++ (match m.title with
        | some t => [("title", MetaVal.vStr t)]
        | none => [])
    ++ (match m.time with
        | some t => [("time", MetaVal.vStr t)]
        | none => [])
    ++ (match m.place with
        | some p => [("place", MetaVal.vStr p)]
        | none => [])
    ++ (match m.attachments with
        | some (a :: l) => [("attachments", MetaVal.vList (a :: l))]
        | _ => [])
    ++ [("user_id", MetaVal.vStr m.user_id)]
  .parsed md (pyStrip m.content ++ "\n")

/-- Memory.is_expired: today > self.expires. -/
def Memory.is_expired (m : Memory) (today : Date) : Bool :=
  decide (m.expires < today)

/-! ## Directories -/

/-- A directory as the glob sees it: file names paired with contents. -/
abbrev Dir := List (String × FmFile)

/-- Lexicographic code-point comparison, Python string "<". -/
def charsLt : List Char → List Char → Bool
  | [], [] => false
  | [], _ :: _ => true
  | _ :: _, [] => false
  | a :: as, b :: bs =>
    if a < b then true else if b < a then false else charsLt as bs

/-- Python string "<=" as used to place a path during sorting. -/
def pathLe (a b : String) : Bool := charsLt a.data b.data || a == b

/-- Stable insertion into a list sorted by path name (Python sorted). -/
def insertByPath (x : String × FmFile) : Dir → Dir
  | [] => [x]
  | y :: ys =>
    if pathLe x.1 y.1 then x :: y :: ys else y :: insertByPath x ys

/-- sorted(memories_dir.glob("*.md")): lexicographic path order. -/
def sortDir : Dir → Dir
  | [] => []
  | x :: xs => insertByPath x (sortDir xs)

/-! ## The cleanup module (src/cleanup.py)

External side effects are collected into an event trace; whether a GCS
delete succeeds is supplied by the oracle purgeOk. -/

namespace Cleanup

inductive Event where
  | purgeAttempt (url : String)
  | logFailure (url : String)
  | unlink (path : String)
  | gitAdd (path : String)
  | gitCommit (message : String)
  | gitPush
deriving DecidableEq, Repr

/-- purge_attachments: delete each URL from GCS; a failure is logged and
swallowed.  Returns the trace of the calls made. -/
def purge_attachments (purgeOk : String → Bool) (m : Memory) : List Event :=
  match m.attachments with
  | none => []
  | some [] => []
  | some l =>
    (l.map fun url =>
      Event.purgeAttempt url ::
        (if purgeOk url then [] else [Event.logFailure url])).flatten

/-- The loop body of find_expired over an already sorted listing. -/
def loadExpired (today : Date) :
    List (String × FmFile) → Except LoadError (List (String × Memory))
  | [] => .ok []
  | (p, f) :: rest => do
    let m ← Memory.load f
    let tail ← loadExpired today rest
    pure (if m.is_expired today then (p, m) :: tail else tail)

/-- find_expired: scan the directory in sorted order, return the expired
(path, memory) pairs; a parse failure propagates. -/
def find_expired (dir : Dir) (today : Date) :
    Except LoadError (List (String × Memory)) :=
  loadExpired today (sortDir dir)

/-- cleanup: purge and delete every expired record, then stage them all,
make one commit, and push unless suppressed.  Returns the deleted paths
and the trace of external effects. -/
def cleanup (purgeOk : String → Bool) (dir : Dir) (today : Date)
    (push : Bool) : Except LoadError (List String × List Event) := do
  let expired ← find_expired dir today
  match expired with
  | [] => pure ([], [])
  | _ =>
    let deleted := expired.map Prod.fst
    let sweepEvents :=
      (expired.map fun pm =>
        purge_attachments purgeOk pm.2 ++ [Event.unlink pm.1]).flatten
    let names := String.intercalate ", " deleted
    let commitEvents :=
      deleted.map Event.gitAdd
        ++ [Event.gitCommit ("Cleanup expired memories: " ++ names)]
        ++ (if push then [Event.gitPush] else [])
    pure (deleted, sweepEvents ++ commitEvents)

end Cleanup

/-! ## The publisher module (src/publisher.py) -/

namespace Publisher

/-- week_end = today + timedelta(days = 6 - today.weekday()), as computed
at the top of generate_page; identical to memory.py _next_sunday. -/
def week_end (today : Date) : Date := today + (6 - weekday today)

/-- The first list comprehension of generate_page:
m.target is None or m.target <= week_end. -/
def inThisWeek (w : Date) (m : Memory) : Bool :=
  match m.target with
  | none => true
  | some t => decide (t ≤ w)

/-- The second list comprehension of generate_page:
m.target is not None and m.target > week_end. -/
def inFuture (w : Date) (m : Memory) : Bool :=
  match m.target with
  | none => false
  | some t => decide (w < t)

/-- The this_week / future display buckets built by generate_page
(publisher.py lines 119-122); the surrounding HTML assembly only
renders these two lists. -/
def generate_page_buckets (memories : List Memory) (today : Date) :
    List Memory × List Memory :=
  (memories.filter (inThisWeek (week_end today)),
   memories.filter (inFuture (week_end today)))

/-- The loop body of publisher.load_memories: skip expired, then skip
other owners when a user filter is given. -/
def loadKept (today : Date) (userId : Option String) :
    List (String × FmFile) → Except LoadError (List Memory)
  | [] => .ok []
  | (_, f) :: rest => do
    let m ← Memory.load f
    let tail ← loadKept today userId rest
    if m.is_expired today then pure tail
    else
      match userId with
      | some u => pure (if m.user_id = u then m :: tail else tail)
      | none => pure (m :: tail)

/-- Sort key of publisher.load_memories:
(m.target is not None, m.target or date.min). -/
def sortKey (m : Memory) : Bool × Date :=
  (m.target.isSome, m.target.getD 1)

def keyLt (a b : Bool × Date) : Bool :=
  (!a.1 && b.1) || (a.1 == b.1 && decide (a.2 < b.2))

/-- Stable insertion matching Python list.sort on sortKey. -/
def insertByKey (x : Memory) : List Memory → List Memory
  | [] => [x]
  | y :: ys =>
    if keyLt (sortKey x) (sortKey y) then x :: y :: ys
    else y :: insertByKey x ys

def sortMemories : List Memory → List Memory
  | [] => []
  | x :: xs => insertByKey x (sortMemories xs)

/-- publisher.load_memories: non-expired (optionally owner-filtered)
memories in sorted path order, then sorted with ongoing records first. -/
def load_memories (dir : Dir) (today : Date) (userId : Option String) :
    Except LoadError (List Memory) := do
  let kept ← loadKept today userId (sortDir dir)
  pure (sortMemories kept)

end Publisher

/-! ## The committer module (src/committer.py) -/

namespace Committer

/-- Python str.lower restricted to ASCII; the characters on which full
Unicode lowercasing differs are discarded by the slug regex either way. -/
def asciiLower (c : Char) : Char :=
  if 'A' ≤ c ∧ c ≤ 'Z' then Char.ofNat (c.toNat + 32) else c

def isSlugChar (c : Char) : Bool :=
  ('a' ≤ c && c ≤ 'z') || ('0' ≤ c && c ≤ '9')

/-- re.sub("[^a-z0-9]+", "-", s): each maximal run of non-slug
characters becomes a single hyphen (inRun tracks an open run). -/
def collapseRuns : Bool → List Char → List Char
  | _, [] => []
  | inRun, c :: cs =>
    if isSlugChar c then c :: collapseRuns false cs
    else if inRun then collapseRuns true cs
    else '-' :: collapseRuns true cs

/-- str.strip("-"): drop hyphens from both ends. -/
def stripDashes (l : List Char) : List Char :=
  ((l.dropWhile (· == '-')).reverse.dropWhile (· == '-')).reverse

/-- The normalization applied inside slugify:
re.sub("[^a-z0-9]+", "-", s.lower()).strip("-"). -/
def normalizeSlug (s : String) : String :=
  String.mk (stripDashes (collapseRuns false (s.data.map asciiLower)))

/-- committer.slugify: derive a file name from title, target date and
optional explicit slug. -/
def slugify (title : Option String) (target : Option Date)
    (slug : Option String) : String :=
  let pre := match target with
    | some d => isoformat d
    | none => "ongoing"
  let fromTitle : String := match title with
    | none => pre ++ ".md"
    | some t =>
      if t = "" then pre ++ ".md"
      else
        let c := normalizeSlug t
        if c = "" then pre ++ ".md" else pre ++ "-" ++ c ++ ".md"
  match slug with
  | none => fromTitle
  | some s =>
    if s = "" then fromTitle
    else
      let c := normalizeSlug s
      if c = "" then fromTitle else pre ++ "-" ++ c ++ ".md"

/-- The loop body of committer.load_memories: keep a memory unless a
user filter is given and the owner differs. -/
def loadAll (userId : Option String) :
    List (String × FmFile) → Except LoadError (List Memory)
  | [] => .ok []
  | (_, f) :: rest => do
    let m ← Memory.load f
    let tail ← loadAll userId rest
    match userId with
    | some u => pure (if m.user_id = u then m :: tail else tail)
    | none => pure (m :: tail)

/-- committer.load_memories: all memories in sorted path order,
optionally filtered to one owner; a parse failure propagates. -/
def load_memories (dir : Dir) (userId : Option String) :
    Except LoadError (List Memory) :=
  loadAll userId (sortDir dir)

/-- The update-path lookup in committer.main (lines 176-181): iterate
the raw glob listing, load every file, stop at the first whose stored
title equals the decision's update_title.  No owner filter is applied. -/
def find_update_path (updateTitle : String) :
    List (String × FmFile) → Except LoadError (Option String)
  | [] => .ok none
  | (p, f) :: rest => do
    let m ← Memory.load f
    if m.title = some updateTitle then pure (some p)
    else find_update_path updateTitle rest

/-- The path selection of committer.main (lines 174-185).  userId is
main's args.user_id, in scope throughout but taking no part in the
lookup: the scan ranges over every record file of every owner. -/
def choose_path (dir : Dir) (action : String) (updateTitle : Option String)
    (memTitle : Option String) (target : Option Date) (slug : Option String)
    (_userId : String) : Except LoadError String :=
  if action = "update" ∧ updateTitle.getD "" ≠ "" then do
    match ← find_update_path (updateTitle.getD "") dir with
    | some p => pure p
    | none => pure (slugify memTitle target slug)
  else
    pure (slugify memTitle target slug)

end Committer

/-! ## Specification-side definitions and helpers -/

/-- Modelled from the spec wording of the Filename Deriver (spec 4.2):
the slug is used when it normalizes to a non-empty string, else the
title, else the bare prefix; to be compared against committer.slugify. -/
def derive_filename_spec (title : Option String) (target : Option Date)
    (slug : Option String) : String :=
  let pre := match target with
    | some d => isoformat d
    | none => "ongoing"
  let ns := Committer.normalizeSlug (slug.getD "")
  let nt := Committer.normalizeSlug (title.getD "")
  if ns ≠ "" then pre ++ "-" ++ ns ++ ".md"
  else if nt ≠ "" then pre ++ "-" ++ nt ++ ".md"
  else pre ++ ".md"

lemma normalizeSlug_empty : Committer.normalizeSlug "" = "" := rfl

instance {ε α : Type} [DecidableEq ε] [DecidableEq α] :
    DecidableEq (Except ε α)
  | .error e, .error f =>
    if h : e = f then .isTrue (by rw [h])
    else .isFalse (fun c => h (Except.error.inj c))
  | .error _, .ok _ => .isFalse (fun c => Except.noConfusion c)
  | .ok _, .error _ => .isFalse (fun c => Except.noConfusion c)
  | .ok a, .ok b =>
    if h : a = b then .isTrue (by rw [h])
    else .isFalse (fun c => h (Except.ok.inj c))

@[simp] lemma error_bind {ε α β : Type} (e : ε) (k : α → Except ε β) :
    (Except.error e >>= k) = Except.error e := rfl

@[simp] lemma ok_bind {ε α β : Type} (a : α) (k : α → Except ε β) :
    (Except.ok a >>= k) = k a := rfl

/-! ## Theorems -/

/-- C3: is_expired(m, today) is true iff today > m.expires (strict), so
the expiry day itself is not expired and the following day is. -/
theorem is_expired_strict_boundary (m : Memory) (today : Date) :
    (m.is_expired today = true ↔ m.expires < today)
    ∧ m.is_expired m.expires = false
    ∧ m.is_expired (m.expires + 1) = true := by
  refine ⟨?_, ?_, ?_⟩ <;> simp [Memory.is_expired]

/-- C8: _next_sunday returns d itself on a Sunday (weekday 6), else a
strictly later Sunday at most 6 days ahead. -/
theorem next_sunday_spec (d : Date) :
    (weekday d = 6 → nextSunday d = d)
    ∧ (weekday d ≠ 6 →
        d < nextSunday d ∧ nextSunday d ≤ d + 6 ∧ weekday (nextSunday d) = 6) := by
  have key : ∀ n : Nat, ((n + 6) % 7 = 6 → n + (6 - (n + 6) % 7) = n)
      ∧ ((n + 6) % 7 ≠ 6 →
          n < n + (6 - (n + 6) % 7) ∧ n + (6 - (n + 6) % 7) ≤ n + 6
            ∧ (n + (6 - (n + 6) % 7) + 6) % 7 = 6) := by
    intro n; constructor
    · intro h; omega
    · intro h; omega
  exact ⟨(key d).1, (key d).2⟩

theorem next_sunday_spec_witness :
    (nextSunday 739669 = 739669)
    ∧ (739665 < nextSunday 739665 ∧ nextSunday 739665 ≤ 739665 + 6
        ∧ weekday (nextSunday 739665) = 6) :=
  ⟨(next_sunday_spec 739669).1 (by decide),
   (next_sunday_spec 739665).2 (by decide)⟩

/-- C4: slugify agrees everywhere with the spec's filename derivation:
prefix-slug.md when the explicit slug normalizes non-empty, else
prefix-title.md when the title normalizes non-empty, else prefix.md,
with prefix the ISO target date or the token "ongoing". -/
theorem slugify_matches_spec (title : Option String) (target : Option Date)
    (slug : Option String) :
    Committer.slugify title target slug = derive_filename_spec title target slug := by
  unfold Committer.slugify derive_filename_spec
  have htitle :
      (match title with
        | none => (match target with | some d => isoformat d | none => "ongoing") ++ ".md"
        | some t =>
          if t = "" then (match target with | some d => isoformat d | none => "ongoing") ++ ".md"
          else
            let c := Committer.normalizeSlug t
            if c = "" then (match target with | some d => isoformat d | none => "ongoing") ++ ".md"
            else (match target with | some d => isoformat d | none => "ongoing") ++ "-" ++ c ++ ".md")
      = (if Committer.normalizeSlug (title.getD "") ≠ ""
          then (match target with | some d => isoformat d | none => "ongoing") ++ "-"
                ++ Committer.normalizeSlug (title.getD "") ++ ".md"
          else (match target with | some d => isoformat d | none => "ongoing") ++ ".md") := by
    cases title with
    | none => simp [normalizeSlug_empty]
    | some t =>
      by_cases ht : t = ""
      · subst ht; simp [normalizeSlug_empty]
      · by_cases hn : Committer.normalizeSlug t = "" <;> simp [ht, hn]
  cases slug with
  | none => simpa [normalizeSlug_empty] using htitle
  | some s =>
    by_cases hs : s = ""
    · subst hs; simpa [normalizeSlug_empty] using htitle
    · by_cases hn : Committer.normalizeSlug s = ""
      · simpa [hs, hn] using htitle
      · simp [hs, hn]

lemma endStrip_append_nl (l : List Char) :
    endStrip (l ++ [Char.ofNat 10]) = endStrip l := by
  induction l with
  | nil => rfl
  | cons a as ih =>
    have e1 : endStrip ((a :: as) ++ [Char.ofNat 10])
        = (if endStrip (as ++ [Char.ofNat 10]) = [] then
            (if isPySpace a = true then [] else [a])
          else a :: endStrip (as ++ [Char.ofNat 10])) := rfl
    have e2 : endStrip (a :: as)
        = (if endStrip as = [] then (if isPySpace a = true then [] else [a])
          else a :: endStrip as) := rfl
    rw [e1, e2, ih]

lemma endStrip_idem (l : List Char) : endStrip (endStrip l) = endStrip l := by
  induction l with
  | nil => rfl
  | cons a as ih =>
    have e2 : endStrip (a :: as)
        = (if endStrip as = [] then (if isPySpace a = true then [] else [a])
          else a :: endStrip as) := rfl
    rw [e2]
    by_cases h : endStrip as = []
    · rw [if_pos h]
      by_cases hp : isPySpace a = true
      · rw [if_pos hp]; rfl
      · rw [if_neg hp]
        simp [endStrip, hp]
    · rw [if_neg h]
      have e6 : endStrip (a :: endStrip as)
          = (if endStrip (endStrip as) = [] then
              (if isPySpace a = true then [] else [a])
            else a :: endStrip (endStrip as)) := rfl
      rw [e6, ih, if_neg h]

lemma stripChars_shape (l : List Char) :
    stripChars l = []
      ∨ ∃ a r, stripChars l = a :: r ∧ isPySpace a = false := by
  induction l with
  | nil => left; rfl
  | cons c cs ih =>
    by_cases hc : isPySpace c = true
    · have e : stripChars (c :: cs) = stripChars cs := by
        unfold stripChars
        rw [List.dropWhile_cons, if_pos hc]
      rw [e]
      exact ih
    · right
      have hcf : isPySpace c = false := by
        cases hcv : isPySpace c
        · rfl
        · exact absurd hcv hc
      have e : stripChars (c :: cs) = endStrip (c :: cs) := by
        unfold stripChars
        rw [List.dropWhile_cons, if_neg hc]
      rw [e]
      have e2 : endStrip (c :: cs)
          = (if endStrip cs = [] then (if isPySpace c = true then [] else [c])
            else c :: endStrip cs) := rfl
      rw [e2]
      by_cases h : endStrip cs = []
      · rw [if_pos h, if_neg hc]
        exact ⟨c, [], rfl, hcf⟩
      · rw [if_neg h]
        exact ⟨c, endStrip cs, rfl, hcf⟩

lemma stripChars_append_nl_strip (l : List Char) :
    stripChars (stripChars l ++ [Char.ofNat 10]) = stripChars l := by
  have hidem : endStrip (stripChars l) = stripChars l := by
    unfold stripChars
    exact endStrip_idem _
  rcases stripChars_shape l with h | ⟨a, r, h, ha⟩
  · rw [h]; rfl
  · have ha2 : ¬ (isPySpace a = true) := by rw [ha]; exact Bool.false_ne_true
    rw [h] at hidem ⊢
    have e3 : (a :: r) ++ [Char.ofNat 10] = a :: (r ++ [Char.ofNat 10]) := rfl
    rw [e3]
    unfold stripChars
    rw [List.dropWhile_cons, if_neg ha2]
    have hnl := endStrip_append_nl (a :: r)
    rw [e3] at hnl
    rw [hnl, hidem]

/-- The body written by dump (stripped by format(), then the appended
newline of memory.py:69) comes back from content.strip() as the
stripped original. -/
lemma pyStrip_dump_body (s : String) :
    pyStrip (pyStrip s ++ "\n") = pyStrip s := by
  unfold pyStrip
  congr 1
  have hdata : (String.mk (stripChars s.data) ++ "\n").data
      = stripChars s.data ++ [Char.ofNat 10] := rfl
  rw [hdata, stripChars_append_nl_strip]

/-- A Memory carrying an explicitly empty attachments list, and one
whose content has a trailing newline. -/
def mEmptyAttachments : Memory :=
  { target := none, expires := 739700, content := "body", attachments := some [] }

def mPaddedContent : Memory :=
  { target := none, expires := 739700, content := "body\n" }

/-- C1 counterexample: the round trip is not the identity at a Memory
whose attachments field is the empty list (dump omits the falsy empty
list and load yields attachments = None), nor at one whose content has
a trailing newline (the frontmatter layer strips the body). -/
theorem load_dump_roundtrip_counterexample :
    Memory.load (Memory.dump mEmptyAttachments) ≠ Except.ok mEmptyAttachments
    ∧ Memory.load (Memory.dump mPaddedContent) ≠ Except.ok mPaddedContent := by
  constructor
  · decide
  · decide

/-- C1 (amended): load(dump(m)) returns m with its content stripped of
leading and trailing whitespace and with an explicitly empty
attachments list collapsed to None; it is the identity exactly on
memories whose content is already stripped and whose attachments field
is not the empty list. -/
theorem load_dump_roundtrip (m : Memory) :
    Memory.load (Memory.dump m)
      = Except.ok
          { m with
            content := pyStrip m.content,
            attachments :=
              if m.attachments = some [] then none else m.attachments } := by
  obtain ⟨target, expires, content, title, time, place, attachments, uid⟩ := m
  have hc := pyStrip_dump_body content
  cases attachments with
  | none =>
    cases target <;> cases title <;> cases time <;> cases place <;>
      (rw [← hc]; rfl)
  | some l =>
    cases l with
    | nil =>
      cases target <;> cases title <;> cases time <;> cases place <;>
        (rw [← hc]; rfl)
    | cons a t =>
      cases target <;> cases title <;> cases time <;> cases place <;>
        (rw [← hc]; rfl)

/-- A directory whose single record is not yet expired on 2026-02-22. -/
def exDirFresh : Dir :=
  [("future.md", Memory.dump
      { target := some 739700, expires := 739750, content := "future event" })]

/-- C5: when no record is expired, cleanup returns the empty list and
its external-effect trace is empty: no purge, no unlink, no git call. -/
theorem cleanup_noop_when_none_expired (purgeOk : String → Bool) (dir : Dir)
    (today : Date) (push : Bool)
    (h : Cleanup.find_expired dir today = .ok []) :
    Cleanup.cleanup purgeOk dir today push = .ok ([], []) := by
  unfold Cleanup.cleanup
  rw [h]
  rfl

theorem cleanup_noop_when_none_expired_witness :
    Cleanup.find_expired exDirFresh 739669 = .ok []
    ∧ Cleanup.cleanup (fun _ => false) exDirFresh 739669 true = .ok ([], []) :=
  ⟨rfl,
   cleanup_noop_when_none_expired (fun _ => false) exDirFresh 739669 true rfl⟩

/-- C7: generate_page puts a null-target record in the this-week bucket
for every today, and a dated record in this-week iff its target is at
most the end of the current week, in the future bucket otherwise. -/
theorem generate_page_placement (mems : List Memory) (today : Date)
    (m : Memory) (hm : m ∈ mems) :
    (m.target = none → m ∈ (Publisher.generate_page_buckets mems today).1)
    ∧ ∀ d, m.target = some d →
        ((m ∈ (Publisher.generate_page_buckets mems today).1
            ↔ d ≤ Publisher.week_end today)
          ∧ (m ∈ (Publisher.generate_page_buckets mems today).2
            ↔ Publisher.week_end today < d)) := by
  unfold Publisher.generate_page_buckets
  constructor
  · intro h
    simp [List.mem_filter, hm, Publisher.inThisWeek, h]
  · intro d hd
    constructor
    · simp [List.mem_filter, hm, Publisher.inThisWeek, hd]
    · simp [List.mem_filter, hm, Publisher.inFuture, hd]

/-- An ongoing record, used to instantiate the bucket-placement claim. -/
def mOngoing : Memory := { target := none, expires := 739700, content := "weekly" }

theorem generate_page_placement_witness :
    mOngoing ∈ [mOngoing]
    ∧ ((mOngoing.target = none
          → mOngoing ∈ (Publisher.generate_page_buckets [mOngoing] 739669).1)
        ∧ ∀ d, mOngoing.target = some d →
            ((mOngoing ∈ (Publisher.generate_page_buckets [mOngoing] 739669).1
                ↔ d ≤ Publisher.week_end 739669)
              ∧ (mOngoing ∈ (Publisher.generate_page_buckets [mOngoing] 739669).2
                ↔ Publisher.week_end 739669 < d))) :=
  ⟨by decide, generate_page_placement [mOngoing] 739669 mOngoing (by decide)⟩

lemma inFuture_eq_not_inThisWeek (w : Date) (m : Memory) :
    Publisher.inFuture w m = !Publisher.inThisWeek w m := by
  unfold Publisher.inFuture Publisher.inThisWeek
  cases m.target with
  | none => rfl
  | some t =>
    by_cases h : t ≤ w
    · simp [h, not_lt.mpr h]
    · simp [h, not_le.mp h]

lemma filter_inFuture_eq (w : Date) (l : List Memory) :
    l.filter (Publisher.inFuture w) = l.filter (fun m => !Publisher.inThisWeek w m) := by
  refine List.filter_congr ?_
  intro x _
  exact inFuture_eq_not_inThisWeek w x

/-- C9: the two buckets of generate_page partition the input list: they
are disjoint and their concatenation is a permutation of the input, so
every memory lands in exactly one bucket. -/
theorem generate_page_buckets_partition (mems : List Memory) (today : Date) :
    (∀ m, ¬(m ∈ (Publisher.generate_page_buckets mems today).1
            ∧ m ∈ (Publisher.generate_page_buckets mems today).2))
    ∧ List.Perm
        ((Publisher.generate_page_buckets mems today).1
          ++ (Publisher.generate_page_buckets mems today).2) mems := by
  unfold Publisher.generate_page_buckets
  constructor
  · rintro m ⟨h1, h2⟩
    rw [List.mem_filter] at h1 h2
    rw [inFuture_eq_not_inThisWeek] at h2
    simp [h1.2] at h2
  · rw [filter_inFuture_eq]
    exact List.filter_append_perm _ mems

/-- A file whose expires field is missing or malformed, or whose header
is not valid frontmatter markup at all. -/
def badExpiresFile : FmFile → Bool
  | .malformed => true
  | .parsed md _ =>
    match md.lookup "expires" with
    | none => true
    | some v => (parseDateVal v).isNone

lemma bind_second_error {α β γ : Type} (x : Except LoadError α)
    (y : Except LoadError β) (k : α → β → Except LoadError γ)
    (e0 : LoadError) (hy : y = .error e0) :
    ∃ e, (x >>= fun a => y >>= k a) = Except.error e := by
  cases x with
  | error e1 => exact ⟨e1, rfl⟩
  | ok a => exact ⟨e0, by rw [hy]; rfl⟩

lemma loadExpires_error_of_bad (md : List (String × MetaVal)) (c : String)
    (h : badExpiresFile (.parsed md c) = true) :
    ∃ e0, loadExpires md = .error e0 := by
  simp only [badExpiresFile] at h
  unfold loadExpires
  cases he : md.lookup "expires" with
  | none => exact ⟨.missingExpires, rfl⟩
  | some v =>
    rw [he] at h
    rw [Option.isNone_iff_eq_none] at h
    exact ⟨.badDate, by simp [h]⟩

lemma load_error_of_badExpiresFile (f : FmFile) (h : badExpiresFile f = true) :
    ∃ e, Memory.load f = .error e := by
  cases f with
  | malformed => exact ⟨.malformedHeader, rfl⟩
  | parsed md c =>
    obtain ⟨e0, hy⟩ := loadExpires_error_of_bad md c h
    simp only [Memory.load]
    exact bind_second_error (loadTarget md) (loadExpires md) _ e0 hy

lemma mem_insertByPath (x a : String × FmFile) (l : Dir) :
    a ∈ insertByPath x l ↔ a = x ∨ a ∈ l := by
  induction l with
  | nil => simp [insertByPath]
  | cons y ys ih =>
    simp only [insertByPath]
    split
    · simp [List.mem_cons]
    · simp only [List.mem_cons, ih]
      tauto

lemma mem_sortDir (a : String × FmFile) (l : Dir) : a ∈ sortDir l ↔ a ∈ l := by
  induction l with
  | nil => simp [sortDir]
  | cons x xs ih => simp [sortDir, mem_insertByPath, ih]

lemma loadExpired_all_ok (today : Date) :
    ∀ (l : List (String × FmFile)) (r),
      Cleanup.loadExpired today l = .ok r →
      ∀ pf ∈ l, ∃ m, Memory.load pf.2 = .ok m := by
  intro l
  induction l with
  | nil => intro r _ pf hpf; simp at hpf
  | cons hd tl ih =>
    obtain ⟨p, f⟩ := hd
    intro r hok pf hpf
    simp only [Cleanup.loadExpired] at hok
    cases hl : Memory.load f with
    | error e => rw [hl] at hok; simp at hok
    | ok m =>
      rw [hl, ok_bind] at hok
      rw [List.mem_cons] at hpf
      rcases hpf with rfl | hpf
      · exact ⟨m, hl⟩
      · cases ht : Cleanup.loadExpired today tl with
        | error e => rw [ht] at hok; simp at hok
        | ok r2 => exact ih r2 ht pf hpf

lemma loadAll_all_ok (userId : Option String) :
    ∀ (l : List (String × FmFile)) (r),
      Committer.loadAll userId l = .ok r →
      ∀ pf ∈ l, ∃ m, Memory.load pf.2 = .ok m := by
  intro l
  induction l with
  | nil => intro r _ pf hpf; simp at hpf
  | cons hd tl ih =>
    obtain ⟨p, f⟩ := hd
    intro r hok pf hpf
    simp only [Committer.loadAll] at hok
    cases hl : Memory.load f with
    | error e => rw [hl] at hok; simp at hok
    | ok m =>
      rw [hl, ok_bind] at hok
      rw [List.mem_cons] at hpf
      rcases hpf with rfl | hpf
      · exact ⟨m, hl⟩
      · cases ht : Committer.loadAll userId tl with
        | error e => rw [ht] at hok; simp at hok
        | ok r2 => exact ih r2 ht pf hpf

lemma loadKept_all_ok (today : Date) (userId : Option String) :
    ∀ (l : List (String × FmFile)) (r),
      Publisher.loadKept today userId l = .ok r →
      ∀ pf ∈ l, ∃ m, Memory.load pf.2 = .ok m := by
  intro l
  induction l with
  | nil => intro r _ pf hpf; simp at hpf
  | cons hd tl ih =>
    obtain ⟨p, f⟩ := hd
    intro r hok pf hpf
    simp only [Publisher.loadKept] at hok
    cases hl : Memory.load f with
    | error e => rw [hl] at hok; simp at hok
    | ok m =>
      rw [hl, ok_bind] at hok
      rw [List.mem_cons] at hpf
      rcases hpf with rfl | hpf
      · exact ⟨m, hl⟩
      · cases ht : Publisher.loadKept today userId tl with
        | error e => rw [ht] at hok; simp at hok
        | ok r2 => exact ih r2 ht pf hpf

/-- C6: a file with a missing or malformed expires field, or an invalid
metadata header, makes load fail, and each directory scan (cleanup's
find_expired, committer's load_memories, publisher's load_memories)
propagates the failure rather than skipping the file. -/
theorem parse_failure_propagates (dir : Dir) (today : Date)
    (userId : Option String) (p : String) (f : FmFile)
    (hmem : (p, f) ∈ dir) (hbad : badExpiresFile f = true) :
    (∃ e, Memory.load f = .error e)
    ∧ (∃ e, Cleanup.find_expired dir today = .error e)
    ∧ (∃ e, Committer.load_memories dir userId = .error e)
    ∧ (∃ e, Publisher.load_memories dir today userId = .error e) := by
  obtain ⟨e, he⟩ := load_error_of_badExpiresFile f hbad
  have hmem' : (p, f) ∈ sortDir dir := (mem_sortDir _ _).mpr hmem
  refine ⟨⟨e, he⟩, ?_, ?_, ?_⟩
  · cases hfe : Cleanup.find_expired dir today with
    | error e2 => exact ⟨e2, rfl⟩
    | ok r =>
      exfalso
      obtain ⟨m, hm⟩ := loadExpired_all_ok today (sortDir dir) r hfe (p, f) hmem'
      rw [he] at hm
      exact Except.noConfusion hm
  · cases hfe : Committer.load_memories dir userId with
    | error e2 => exact ⟨e2, rfl⟩
    | ok r =>
      exfalso
      obtain ⟨m, hm⟩ := loadAll_all_ok userId (sortDir dir) r hfe (p, f) hmem'
      rw [he] at hm
      exact Except.noConfusion hm
  · cases hfe : Publisher.load_memories dir today userId with
    | error e2 => exact ⟨e2, rfl⟩
    | ok r =>
      exfalso
      unfold Publisher.load_memories at hfe
      cases hk : Publisher.loadKept today userId (sortDir dir) with
      | error e2 => rw [hk] at hfe; simp at hfe
      | ok r2 =>
        obtain ⟨m, hm⟩ := loadKept_all_ok today userId (sortDir dir) r2 hk (p, f) hmem'
        rw [he] at hm
        exact Except.noConfusion hm

/-- A record file with no expires field, inside a one-file directory. -/
def exBadFile : FmFile := .parsed [("title", .vStr "Broken")] "body"

def exBadDir : Dir := [("bad.md", exBadFile)]

theorem parse_failure_propagates_witness :
    (("bad.md", exBadFile) ∈ exBadDir ∧ badExpiresFile exBadFile = true)
    ∧ ((∃ e, Memory.load exBadFile = .error e)
      ∧ (∃ e, Cleanup.find_expired exBadDir 739669 = .error e)
      ∧ (∃ e, Committer.load_memories exBadDir none = .error e)
      ∧ (∃ e, Publisher.load_memories exBadDir 739669 none = .error e)) :=
  ⟨⟨by decide, by decide⟩,
   parse_failure_propagates exBadDir 739669 none "bad.md" exBadFile
     (by decide) (by decide)⟩

def isCommitEvent : Cleanup.Event → Bool
  | .gitCommit _ => true
  | _ => false

lemma purge_no_commit (purgeOk : String → Bool) (m : Memory) :
    ∀ e ∈ Cleanup.purge_attachments purgeOk m, isCommitEvent e = false := by
  intro e he
  unfold Cleanup.purge_attachments at he
  cases hA : m.attachments with
  | none => rw [hA] at he; simp at he
  | some l =>
    rw [hA] at he
    cases l with
    | nil => simp at he
    | cons a t =>
      simp only [List.mem_flatten, List.mem_map] at he
      obtain ⟨l', ⟨url, hurl, rfl⟩, hel⟩ := he
      rcases List.mem_cons.mp hel with rfl | hel
      · rfl
      · by_cases hp : purgeOk url
        · simp [hp] at hel
        · simp [hp] at hel
          subst hel
          rfl

lemma mem_purge_attachment (purgeOk : String → Bool) (m : Memory)
    (url : String) (h : url ∈ m.attachments.getD []) :
    Cleanup.Event.purgeAttempt url ∈ Cleanup.purge_attachments purgeOk m := by
  cases hA : m.attachments with
  | none => rw [hA] at h; simp at h
  | some l =>
    rw [hA] at h
    simp only [Option.getD_some] at h
    cases l with
    | nil => simp at h
    | cons a t =>
      unfold Cleanup.purge_attachments
      rw [hA]
      simp only [List.mem_flatten, List.mem_map]
      exact ⟨_, ⟨url, h, rfl⟩, List.mem_cons_self _ _⟩

lemma mem_sweep_unlink (purgeOk : String → Bool)
    (exp : List (String × Memory)) (pm : String × Memory) (h : pm ∈ exp) :
    Cleanup.Event.unlink pm.1
      ∈ (exp.map fun q =>
          Cleanup.purge_attachments purgeOk q.2 ++ [Cleanup.Event.unlink q.1]).flatten := by
  simp only [List.mem_flatten, List.mem_map]
  exact ⟨_, ⟨pm, h, rfl⟩, by simp⟩

lemma mem_sweep_purge (purgeOk : String → Bool)
    (exp : List (String × Memory)) (pm : String × Memory) (url : String)
    (h : pm ∈ exp) (hu : url ∈ pm.2.attachments.getD []) :
    Cleanup.Event.purgeAttempt url
      ∈ (exp.map fun q =>
          Cleanup.purge_attachments purgeOk q.2 ++ [Cleanup.Event.unlink q.1]).flatten := by
  simp only [List.mem_flatten, List.mem_map]
  exact ⟨_, ⟨pm, h, rfl⟩,
    List.mem_append_left _ (mem_purge_attachment purgeOk pm.2 url hu)⟩

lemma countP_sweep_zero (purgeOk : String → Bool)
    (exp : List (String × Memory)) :
    ((exp.map fun q =>
        Cleanup.purge_attachments purgeOk q.2 ++ [Cleanup.Event.unlink q.1]).flatten).countP
      isCommitEvent = 0 := by
  refine List.countP_eq_zero.mpr ?_
  intro e he
  simp only [List.mem_flatten, List.mem_map] at he
  obtain ⟨l', ⟨pm, hpm, rfl⟩, hel⟩ := he
  rcases List.mem_append.mp hel with hp | hu
  · simp [purge_no_commit purgeOk pm.2 e hp]
  · rcases List.mem_singleton.mp hu with rfl
    simp [isCommitEvent]

lemma countP_gitAdds_zero (paths : List String) :
    (paths.map Cleanup.Event.gitAdd).countP isCommitEvent = 0 := by
  refine List.countP_eq_zero.mpr ?_
  intro e he
  simp only [List.mem_map] at he
  obtain ⟨p, _, rfl⟩ := he
  simp [isCommitEvent]

/-- C2: with at least one expired record and every attachment purge
failing, cleanup still deletes every expired file, attempts a purge of
every attachment of every expired record, stages every deleted path,
makes exactly one commit naming all deleted files, and returns the full
list of deleted paths. -/
theorem cleanup_completes_despite_purge_failures (purgeOk : String → Bool)
    (dir : Dir) (today : Date) (push : Bool)
    (expired : List (String × Memory))
    (hfind : Cleanup.find_expired dir today = .ok expired)
    (hne : expired ≠ [])
    (_hfail : ∀ url, purgeOk url = false) :
    ∃ events,
      Cleanup.cleanup purgeOk dir today push
          = .ok (expired.map Prod.fst, events)
      ∧ (∀ pm ∈ expired, Cleanup.Event.unlink pm.1 ∈ events)
      ∧ (∀ pm ∈ expired, ∀ url ∈ pm.2.attachments.getD [],
          Cleanup.Event.purgeAttempt url ∈ events)
      ∧ (∀ pm ∈ expired, Cleanup.Event.gitAdd pm.1 ∈ events)
      ∧ Cleanup.Event.gitCommit
          ("Cleanup expired memories: "
            ++ String.intercalate ", " (expired.map Prod.fst)) ∈ events
      ∧ events.countP isCommitEvent = 1 := by
  cases expired with
  | nil => exact absurd rfl hne
  | cons hd tl =>
    unfold Cleanup.cleanup
    rw [hfind, ok_bind]
    refine ⟨_, rfl, ?_, ?_, ?_, ?_, ?_⟩
    · intro pm hpm
      exact List.mem_append_left _ (mem_sweep_unlink purgeOk (hd :: tl) pm hpm)
    · intro pm hpm url hu
      exact List.mem_append_left _ (mem_sweep_purge purgeOk (hd :: tl) pm url hpm hu)
    · intro pm hpm
      refine List.mem_append_right _ (List.mem_append_left _ (List.mem_append_left _ ?_))
      exact List.mem_map.mpr ⟨pm.1, List.mem_map.mpr ⟨pm, hpm, rfl⟩, rfl⟩
    · refine List.mem_append_right _ (List.mem_append_left _ (List.mem_append_right _ ?_))
      simp
    · rw [List.countP_append, List.countP_append, List.countP_append]
      rw [countP_sweep_zero, countP_gitAdds_zero]
      have h3 : ([Cleanup.Event.gitCommit
          ("Cleanup expired memories: "
            ++ String.intercalate ", " ((hd :: tl).map Prod.fst))]).countP
            isCommitEvent = 1 := rfl
      have h4 : (if push then [Cleanup.Event.gitPush] else []).countP
          isCommitEvent = 0 := by cases push <;> rfl
      rw [h3, h4]

/-- An expired record with two attachments, and a plain expired record. -/
def exMemA : Memory :=
  { target := some 739600, expires := 739650, content := "a",
    attachments := some ["u1", "u2"] }

def exMemB : Memory :=
  { target := some 739601, expires := 739651, content := "b" }

def exDirExpired : Dir :=
  [("a.md", Memory.dump exMemA), ("b.md", Memory.dump exMemB)]

theorem cleanup_completes_despite_purge_failures_witness :
    (Cleanup.find_expired exDirExpired 739669
        = .ok [("a.md", exMemA), ("b.md", exMemB)]
      ∧ [("a.md", exMemA), ("b.md", exMemB)] ≠ []
      ∧ ∀ url : String, (fun _ => false : String → Bool) url = false)
    ∧ ∃ events,
        Cleanup.cleanup (fun _ => false) exDirExpired 739669 true
            = .ok ([("a.md", exMemA), ("b.md", exMemB)].map Prod.fst, events)
        ∧ (∀ pm ∈ [("a.md", exMemA), ("b.md", exMemB)],
            Cleanup.Event.unlink pm.1 ∈ events)
        ∧ (∀ pm ∈ [("a.md", exMemA), ("b.md", exMemB)],
            ∀ url ∈ pm.2.attachments.getD [],
              Cleanup.Event.purgeAttempt url ∈ events)
        ∧ (∀ pm ∈ [("a.md", exMemA), ("b.md", exMemB)],
            Cleanup.Event.gitAdd pm.1 ∈ events)
        ∧ Cleanup.Event.gitCommit
            ("Cleanup expired memories: "
              ++ String.intercalate ", "
                  ([("a.md", exMemA), ("b.md", exMemB)].map Prod.fst)) ∈ events
        ∧ events.countP isCommitEvent = 1 :=
  ⟨⟨by decide, by decide, fun _ => rfl⟩,
   cleanup_completes_despite_purge_failures (fun _ => false) exDirExpired
     739669 true [("a.md", exMemA), ("b.md", exMemB)] (by decide) (by decide)
     (fun _ => rfl)⟩

/-- A record owned by tenant "alice". -/
def tenantMem : Memory :=
  { target := some 739676, expires := 739706, content := "Lunch at noon",
    title := some "Lunch", user_id := "alice" }

def tenantFile : FmFile := Memory.dump tenantMem

def tenantDir : Dir := [("2026-03-01-lunch.md", tenantFile)]

/-- C10: the update-path lookup of committer.main ignores the
invocation's user_id entirely — two runs differing only in user_id
select the same path — and concretely, a run by "bob" selects and
would overwrite a file owned by "alice". -/
theorem choose_path_ignores_user_id :
    (∀ dir action updateTitle memTitle target slug u1 u2,
        Committer.choose_path dir action updateTitle memTitle target slug u1
          = Committer.choose_path dir action updateTitle memTitle target slug u2)
    ∧ Committer.choose_path tenantDir "update" (some "Lunch") (some "Lunch")
        (some 739676) none "bob" = .ok "2026-03-01-lunch.md"
    ∧ Memory.load tenantFile = .ok tenantMem
    ∧ tenantMem.user_id = "alice"
    ∧ ("alice" : String) ≠ "bob" :=
  ⟨fun _ _ _ _ _ _ _ _ => rfl, rfl, rfl, rfl, by decide⟩

end LivingMemory
